import Mathlib

/-!
Shallow embedding of `src/torsion/conf/conf.py` (torsional-strain repository).

Conventions of the embedding:

* Machine floats are modelled as exact rationals (`ℚ`).  Angles are carried in
  degrees: the Python code builds the grid `2*i*pi/num_points` in radians and
  converts with `Rad2Deg`; the embedding applies the (bijective, linear)
  radian→degree rescaling once and for all, so the grid is `360*i/num_points`
  and `angle * Rad2Deg` is the angle itself.
* Every function of the source file only ever reads or writes the one driven
  dihedral passed to it, so a conformer's coordinates are modelled as the pair
  of (a) the measured value of that dihedral and (b) an opaque identifier
  `base` standing for every other internal coordinate.  `OESetTorsion`
  becomes the field update `setTorsion`.
* The external OpenEye collaborators (`OETorsionScan`, `OEOmega`) are
  modelled as explicit parameters holding their output, as §6 of the spec
  prescribes ("injectable capability interface"): `get_best_conf` receives
  the scanner's conformer list, `gen_starting_confs` receives the sampler's
  outcome (renumbered atoms with surviving transient markers, and fresh
  conformers) or `none` for failure.
* Python objects are mutable; where the source mutates its input molecule the
  embedding threads the input explicitly and returns the post-call input next
  to the result (`gen_torsional_confs`).
-/

namespace Torsion

/-- Python `round` (banker's rounding, half to even) followed by `int`,
applied to an exact rational.  Stated on the numerator/denominator of the
reduced fraction so that it evaluates by integer arithmetic: `f` is `⌊q⌋`
and `t/den` is twice the fractional part (see `pyRound_eq` below for the
floor-and-fraction formulation). -/
def pyRound (q : ℚ) : ℤ :=
  let f := q.num.fdiv q.den
  let t := 2 * (q.num - f * q.den)
  if t < (q.den : ℤ) then f
  else if (q.den : ℤ) < t then f + 1
  else if f % 2 = 0 then f else f + 1

/-- Python `"{:02d}".format(n)` for a natural number. -/
def fmt02 (n : Nat) : String :=
  if n < 10 then "0" ++ toString n else toString n

/-- Is this character blank for Python `str.split()`. -/
def isWS (c : Char) : Bool :=
  c == ' ' || c == '\t' || c == '\n' || c == '\r'

/-- Accumulator-based splitting of a character list on whitespace runs
(`cur` holds the current token reversed). -/
def pySplitAux : List Char → List Char → List String
  | [], cur => if cur.isEmpty then [] else [String.mk cur.reverse]
  | c :: rest, cur =>
      if isWS c then
        if cur.isEmpty then pySplitAux rest []
        else String.mk cur.reverse :: pySplitAux rest []
      else pySplitAux rest (c :: cur)

/-- Python `str.split()` (no argument): split on whitespace runs, dropping
empty pieces. -/
def pySplit (s : String) : List String :=
  pySplitAux s.data []

/-- Digits of a token as a natural number; `none` on an empty or non-digit
token. -/
def digitsToNat : List Char → Option Nat
  | [] => none
  | ds => ds.foldl
      (fun acc c => acc.bind
        (fun a => if c.isDigit then some (10 * a + (c.toNat - '0'.toNat))
          else none))
      (some 0)

/-- Python `int(x)` on a token: optional sign followed by decimal digits,
`none` (a `ValueError`) otherwise. -/
def pyInt (s : String) : Option ℤ :=
  match s.data with
  | '-' :: rest => (digitsToNat rest).map (fun n => -(n : ℤ))
  | '+' :: rest => (digitsToNat rest).map (fun n => (n : ℤ))
  | ds => (digitsToNat ds).map (fun n => (n : ℤ))

/-- Modelled from the spec: the string-keyed metadata store of §3/§6
(`torsion.utils.get_sd_data` / `has_sd_data` are repository code that is not
under `src/`, and `OESetSDData` is the external geometry library).  A tag
store is an association list; setting an existing key overwrites it in place,
setting a fresh key appends. -/
def setTag {α : Type} (l : List (String × α)) (k : String) (v : α) :
    List (String × α) :=
  if l.any (fun p => p.1 == k) then
    l.map (fun p => if p.1 == k then (k, v) else p)
  else l ++ [(k, v)]

/-- Look a key up in a tag store (first binding wins). -/
def getTag {α : Type} (l : List (String × α)) (k : String) : Option α :=
  (l.find? (fun p => p.1 == k)).map (fun p => p.2)

/-- Modelled from the spec: `torsion.utils.get_sd_data`, a plain tag lookup
returning the stored string (empty string when absent). -/
def getSD (l : List (String × String)) (k : String) : String :=
  (getTag l k).getD ""

/-- Modelled from the spec: `torsion.utils.has_sd_data`, tag presence. -/
def hasSD (l : List (String × String)) (k : String) : Bool :=
  (getTag l k).isSome

/-- Coordinates of one conformer, relative to the driven dihedral:
`ang` is the measured dihedral (degrees) and `base` stands for all other
internal coordinates. -/
structure Coords where
  base : Nat
  ang : ℚ
deriving DecidableEq, Repr

/-- One conformer: its index inside the owning molecule, coordinates, title,
string SD tags and numeric (`SetDoubleData`) tags. -/
structure Conformer where
  idx : Nat
  coords : Coords
  title : String
  sdTags : List (String × String)
  dblTags : List (String × ℚ)
deriving DecidableEq, Repr

/-- A molecule: title, atom count, per-atom transient `dihidx` markers
(one entry per atom), molecule-level SD tags and the conformer list. -/
structure Molecule where
  title : String
  natoms : Nat
  markers : List (Option Nat)
  sd : List (String × String)
  confs : List Conformer
deriving DecidableEq, Repr

/-- `OESetTorsion` on a conformer: the driven dihedral is set to exactly the
requested angle, every other coordinate is untouched. -/
def setTorsion (c : Conformer) (a : ℚ) : Conformer :=
  { c with coords := { c.coords with ang := a } }

/-- The angle grid of `get_best_conf` / `gen_torsional_confs`:
`[2*i*Pi/num_points for i in range(num_points)]`, in degrees
(`mkRat (360*i) n` is the exact rational `360*i/n`, see `angle_list_eq`). -/
def angle_list (n : Nat) : List ℚ :=
  (List.range n).map (fun (i : ℕ) => mkRat (360 * i) n)

/-- Conformers as delivered by the external torsion scanner: indexed in
enumeration order, fresh titles and tags. -/
def mkConf (i : Nat) (c : Coords) : Conformer :=
  { idx := i, coords := c, title := "", sdTags := [], dblTags := [] }

/-- Wrap the scanner's coordinate list into conformers. -/
def mkScanConfs (scan : List Coords) : List Conformer :=
  scan.enum.map (fun p => mkConf p.1 p.2)

/-- Body of the labeling loop of `get_best_conf` (conf.py lines 175-186):
snap the dihedral to the grid angle, then stamp `CONFORMER_LABEL`,
`TORSION_ANGLE` (string and numeric) and the title. -/
def scanLabel (title : String) (a : ℚ) (c : Conformer) : Conformer :=
  let deg := pyRound a
  let c1 := setTorsion c a
  let nm := title ++ "_" ++ fmt02 c1.idx
  { c1 with
    sdTags := setTag (setTag c1.sdTags "CONFORMER_LABEL" nm)
      "TORSION_ANGLE" (toString deg),
    dblTags := setTag c1.dblTags "TORSION_ANGLE" ((deg : ℚ)),
    title := nm ++ ": Angle " ++ toString deg }

/-- `for angle, conf in zip(angle_list, tor_mol.GetConfs()): ...` — label the
zipped prefix, conformers beyond the grid (if any) stay untouched. -/
def labelScanConfs (title : String) (angles : List ℚ) (confs : List Conformer) :
    List Conformer :=
  (angles.zip confs).map (fun p => scanLabel title p.1 p.2) ++
    confs.drop angles.length

/-- `OECopySDData(dst, mol)`: copy every SD pair of the source onto the
destination store. -/
def copySDInto (dst : List (String × String)) (src : List (String × String)) :
    List (String × String) :=
  src.foldl (fun acc p => setTag acc p.1 p.2) dst

/-- `get_best_conf(mol, dih, num_points)` (conf.py lines 144-188).  The
external scanner's output (`OETorsionScan`) is the parameter `scan`; the
fresh output molecule receives the scan conformers and a copy of the input's
SD data, then the wraparound dedup deletes the conformer left in the loop
variable — the last one in enumeration order — whenever the count exceeds
`num_points`, and finally the zipped labeling loop runs. -/
def get_best_conf (mol : Molecule) (scan : List Coords) (num_points : Nat) :
    Molecule :=
  let angles := angle_list num_points
  let tor_confs := mkScanConfs scan
  let sd := copySDInto [] mol.sd
  let confs1 := if num_points < tor_confs.length then tor_confs.dropLast
    else tor_confs
  { title := mol.title, natoms := mol.natoms,
    markers := List.replicate mol.natoms none,
    sd := sd, confs := labelScanConfs mol.title angles confs1 }

/-- Rotor-bond selection policies of §4.2 of the spec. -/
inductive RotorPolicy where
  | distanceRestricted (b c : ℤ)
  | customOnly
  | general
deriving DecidableEq, Repr

/-- Rotor-predicate selection of `gen_starting_confs` (conf.py lines 81-97):
`if False and max_one_bond_away: ... elif False: ... else: general`. -/
def select_rotor_predicate (max_one_bond_away : Bool) (d1 d2 : ℤ) :
    RotorPolicy :=
  if false && max_one_bond_away then .distanceRestricted d1 d2
  else if false then .customOnly
  else .general

/-- The marker-tagging loop (conf.py lines 70-78): each atom whose index
matches a dihedral index receives that position as transient data; the four
`if`s run in order, so on duplicated indices the later position wins. -/
def markersWith (ms : List (Option Nat)) (d0 d1 d2 d3 : ℤ) :
    List (Option Nat) :=
  ms.enum.map (fun p =>
    if (p.1 : ℤ) = d3 then some 3
    else if (p.1 : ℤ) = d2 then some 2
    else if (p.1 : ℤ) = d1 then some 1
    else if (p.1 : ℤ) = d0 then some 0
    else p.2)

/-- The reassignment loop (conf.py lines 114-117): walk the atoms in index
order and record, for each marker value, the index of the atom carrying it
(later atoms overwrite earlier ones). -/
def reassignAux : Nat → List (Option Nat) → List ℤ → List ℤ
  | _, [], nd => nd
  | i, a :: rest, nd =>
    reassignAux (i + 1) rest
      (match a with
       | some k => nd.set k (i : ℤ)
       | none => nd)

/-- `new_didx = [-1,-1,-1,-1]; for atom in ...: new_didx[data] = idx`. -/
def reassign (atoms : List (Option Nat)) : List ℤ :=
  reassignAux 0 atoms [-1, -1, -1, -1]

/-- The Python exceptions `gen_starting_confs` can actually raise:
`ValueError` for the missing tag, `ValueError` from `int(x)` on a
non-numeric token, `IndexError` from `dihedralAtomIndices[3]` when fewer
than 4 tokens parse, and `ValueError` when the sampler yields nothing. -/
inductive GenError where
  | missingTag
  | intParse
  | indexError
  | confGenFailed
deriving DecidableEq, Repr

/-- Name of the dihedral tag. -/
def TAGNAME : String := "TORSION_ATOMS_FRAGMENT"

/-- Tokenize and parse the dihedral tag:
`[int(x) for x in get_sd_data(mol, TAGNAME).split()]` (before the `- 1`). -/
def parseDih (mol : Molecule) : Option (List ℤ) :=
  (pySplit (getSD mol.sd TAGNAME)).mapM pyInt

/-- The joined parent tag used in conformer labels (conf.py line 135):
`"_".join(get_sd_data(mol, "TORSION_ATOMS_ParentMol").split())`. -/
def parentPart (mol : Molecule) : String :=
  String.intercalate "_" (pySplit (getSD mol.sd "TORSION_ATOMS_ParentMol"))

/-- `gen_starting_confs` (conf.py lines 40-141).  The external sampler
(`OEOmega`, configured by `configure_omega`) is the parameter `omega`:
`none` when it fails, otherwise the renumbered atom list (each entry the
transient marker carried over by that atom) together with the fresh
conformer coordinates.  The embedding follows the source line by line:
missing-tag check, token parsing, index access on the first four entries,
marker tagging on the copy, the (dead-branched) rotor-predicate selection,
sampling, marker read-back, SD reset to exactly three tags, and the final
labeling loop over the resulting conformers. -/
def gen_starting_confs (mol : Molecule)
    (omega : Option (List (Option Nat) × List Coords))
    (max_one_bond_away : Bool) (num_conformers : Nat) :
    Except GenError Molecule :=
  if hasSD mol.sd TAGNAME = true then
    match parseDih mol with
    | none => .error .intParse
    | some xs =>
      let dihIdx := xs.map (fun x => x - 1)
      if dihIdx.length < 4 then .error .indexError
      else
        let d0 := dihIdx.getD 0 0
        let d1 := dihIdx.getD 1 0
        let d2 := dihIdx.getD 2 0
        let d3 := dihIdx.getD 3 0
        let body : Except GenError Molecule :=
          if 1 < num_conformers then
            let _rotor := select_rotor_predicate max_one_bond_away d1 d2
            match omega with
            | none => .error .confGenFailed
            | some (atoms, newCoords) =>
              let new_didx := reassign atoms
              let g := fun (k : Nat) => (new_didx.getD k (-1)) + 1
              let sd1 := setTag ([] : List (String × String)) TAGNAME
                (String.intercalate " "
                  (new_didx.map (fun x => toString (x + 1))))
              let sd2 := setTag sd1 "TORSION_ATOMS_ParentMol"
                (getSD mol.sd "TORSION_ATOMS_ParentMol")
              let sd3 := setTag sd2 "TORSION_ATOMPROP"
                ("cs1:0:1;1%" ++ toString (g 0) ++ ":1%" ++ toString (g 1)
                  ++ ":1%" ++ toString (g 2) ++ ":1%" ++ toString (g 3))
              .ok { title := mol.title, natoms := atoms.length,
                    markers := atoms, sd := sd3,
                    confs := newCoords.enum.map (fun p => mkConf p.1 p.2) }
          else
            .ok { mol with markers := markersWith mol.markers d0 d1 d2 d3 }
        match body with
        | .error e => .error e
        | .ok m =>
          .ok { m with confs := m.confs.enum.map (fun p =>
            let label := mol.title ++ "_" ++ parentPart mol ++ "_"
              ++ fmt02 p.1
            { p.2 with
              sdTags := setTag p.2.sdTags "CONFORMER_LABEL" label,
              title := label }) }
  else .error .missingTag

/-- The labeled output conformer appended by the inner loop of
`gen_torsional_confs` (conf.py lines 217-223): a copy of the (just mutated)
source conformer, re-indexed at the end of the output, restamped with
`CONFORMER_LABEL`, `TORSION_ANGLE` (string and numeric) and the title;
`name0` is the source conformer's `CONFORMER_LABEL`, read once before the
inner loop. -/
def expandNewConf (name0 : String) (conf : Conformer) (outLen : Nat)
    (p : Nat × ℚ) : Conformer :=
  let deg := pyRound p.2
  let nm := name0 ++ "_" ++ fmt02 p.1
  { conf with
    idx := outLen,
    sdTags := setTag (setTag conf.sdTags "CONFORMER_LABEL" nm)
      "TORSION_ANGLE" (toString deg),
    dblTags := setTag conf.dblTags "TORSION_ANGLE" ((deg : ℚ)),
    title := name0 ++ ": Angle " ++ toString deg }

/-- Body of the inner loop of `gen_torsional_confs` (conf.py lines 211-223):
mutate the *source* conformer's dihedral to the grid angle, then append the
labeled copy to the output.  The state is the pair (current source
conformer, output conformer list so far). -/
def expandStep (name0 : String) (st : Conformer × List Conformer)
    (p : Nat × ℚ) : Conformer × List Conformer :=
  let conf := setTorsion st.1 p.2
  (conf, st.2 ++ [expandNewConf name0 conf st.2.length p])

/-- Drive one source conformer across the whole (indexed) angle grid. -/
def expandConf (angles : List (Nat × ℚ)) (conf0 : Conformer)
    (acc : List Conformer) : Conformer × List Conformer :=
  angles.foldl (expandStep (getSD conf0.sdTags "CONFORMER_LABEL"))
    (conf0, acc)

/-- Body of the outer loop of `gen_torsional_confs`: the state is the pair
(input conformers already driven, output conformer list so far). -/
def expandFold (angles : List (Nat × ℚ)) (st : List Conformer × List Conformer)
    (c : Conformer) : List Conformer × List Conformer :=
  let r := expandConf angles c st.2
  (st.1 ++ [r.1], r.2)

/-- `gen_torsional_confs(mol, dih, num_points, include_input)`
(conf.py lines 191-225).  Returns the pair (output molecule, input molecule
after the call): the output starts as a copy of the input (conformers kept
only when `include_input`), and the loop drives each *input* conformer
through the grid — mutating it in place — appending a labeled copy per
angle to the output. -/
def gen_torsional_confs (mol : Molecule) (num_points : Nat)
    (include_input : Bool) : Molecule × Molecule :=
  let angles := (angle_list num_points).enum
  let startConfs := if include_input then mol.confs else []
  let res := mol.confs.foldl (expandFold angles) ([], startConfs)
  ({ mol with confs := res.2 }, { mol with confs := res.1 })

/-- `split_confs(mol)` (conf.py lines 228-232): one fresh single-conformer
molecule per conformer (`OEMol(conf)` carries the conformer's title, tags
and coordinates), then `OECopySDData(new_mol, mol)` lays the parent's SD
data over it. -/
def split_confs (mol : Molecule) : List Molecule :=
  mol.confs.map (fun c =>
    { title := c.title, natoms := mol.natoms, markers := mol.markers,
      sd := copySDInto c.sdTags mol.sd,
      confs := [{ c with idx := 0 }] })

/-- A small, fully concrete, validly tagged molecule used as test input. -/
def exConf : Conformer :=
  { idx := 0, coords := { base := 0, ang := 0 }, title := "orig",
    sdTags := [("CONFORMER_LABEL", "lbl")], dblTags := [] }

/-- Concrete validly tagged single-conformer molecule. -/
def exMol : Molecule :=
  { title := "m", natoms := 4, markers := [none, none, none, none],
    sd := [("TORSION_ATOMS_FRAGMENT", "1 2 3 4"),
           ("TORSION_ATOMS_ParentMol", "7 8")],
    confs := [exConf] }

/-- A scanner output of 13 conformers (the `numPoints + 1` rounding case of
a 12-point scan). -/
def exScan13 : List Coords := List.replicate 13 { base := 0, ang := 0 }

/-- Concrete molecule whose dihedral tag holds five tokens, the fifth one
(atom 5, 0-based 4) outside the 4-atom index range. -/
def exMol5 : Molecule :=
  { title := "m", natoms := 4, markers := [none, none, none, none],
    sd := [("TORSION_ATOMS_FRAGMENT", "1 2 3 4 5"),
           ("TORSION_ATOMS_ParentMol", "7 8")],
    confs := [exConf] }

end Torsion

namespace Torsion

/-! ### Helper lemmas -/

theorem setTorsion_setTorsion (c : Conformer) (a b : ℚ) :
    setTorsion (setTorsion c a) b = setTorsion c b := rfl

theorem expandConf_fst (angles : List (Nat × ℚ)) (conf0 : Conformer)
    (acc : List Conformer) :
    (expandConf angles conf0 acc).1
      = (angles.map Prod.snd).foldl setTorsion conf0 := by
  induction angles generalizing conf0 acc with
  | nil => rfl
  | cons p rest ih =>
      have h : expandConf (p :: rest) conf0 acc
          = expandConf rest (setTorsion conf0 p.2)
              ((expandStep (getSD conf0.sdTags "CONFORMER_LABEL")
                (conf0, acc) p).2) := rfl
      rw [h, ih]
      rfl

theorem foldl_setTorsion_range (f : Nat → ℚ) (c : Conformer) (N : Nat)
    (h : 1 ≤ N) :
    ((List.range N).map f).foldl setTorsion c = setTorsion c (f (N - 1)) := by
  induction N with
  | zero => omega
  | succ n ih =>
      cases n with
      | zero => rfl
      | succ m =>
          have ihm := ih (by omega)
          rw [List.range_succ, List.map_append, List.foldl_append, ihm]
          simp [setTorsion_setTorsion]

theorem angle_list_eq (n : Nat) :
    angle_list n
      = (List.range n).map (fun (i : ℕ) => 360 * (i : ℚ) / (n : ℚ)) := by
  unfold angle_list
  refine List.map_congr_left ?_
  intro i _
  rw [Rat.mkRat_eq_div]
  push_cast
  ring

theorem foldl_expandFold_fst (confs : List Conformer)
    (angles : List (Nat × ℚ)) (acc1 acc2 : List Conformer) :
    (confs.foldl (expandFold angles) (acc1, acc2)).1
      = acc1 ++ confs.map
          (fun c => (angles.map Prod.snd).foldl setTorsion c) := by
  induction confs generalizing acc1 acc2 with
  | nil => simp
  | cons c rest ih =>
      rw [List.foldl_cons]
      have h : expandFold angles (acc1, acc2) c
          = (acc1 ++ [(expandConf angles c acc2).1],
             (expandConf angles c acc2).2) := rfl
      rw [h, ih, expandConf_fst]
      simp

/-! ### C7 -/

/-- C7 (counterexample): the configuration choice the claim names,
`max_one_bond_away = true`, still selects the general policy — the
distance-restricted branch of `gen_starting_confs` is guarded by a constant
`False` (conf.py line 82) and is never taken. -/
theorem c7_counterexample :
    select_rotor_predicate true 5 7 = RotorPolicy.general := by decide

/-- C7 (amended): the rotor-bond selection of `gen_starting_confs` is not
configuration-selectable: for every value of `max_one_bond_away` (and of the
central-bond indices) the general policy — topological rotor OR custom
rotatable-bond test — is selected; the distance-restricted and custom-only
branches are dead code behind constant-`False` guards. -/
theorem c7_amended : ∀ (b : Bool) (d1 d2 : ℤ),
    select_rotor_predicate b d1 d2 = RotorPolicy.general := by
  intro b d1 d2
  simp [select_rotor_predicate]

/-! ### C2 -/

/-- C2 (counterexample): `expand` (`gen_torsional_confs`) does not leave its
input molecule unmodified: on a concrete single-conformer molecule, after the
call the input's conformer coordinates differ (the driven dihedral was left
at the last grid angle, conf.py line 213 sets the torsion on the *input*
conformer). -/
theorem c2_counterexample :
    (gen_torsional_confs exMol 2 false).2 ≠ exMol := by decide

/-- C2 (amended): `generate`, `scan` and `split` read their input only (their
embeddings are pure functions of it), but `expand` mutates the input: with
`numPoints = N ≥ 1` each input conformer is returned with its driven dihedral
set to the last grid angle `2π(N−1)/N` (here in degrees, `360(N−1)/N`),
everything else — tags, titles, the other coordinates — unchanged. -/
theorem c2_amended (mol : Molecule) (N : Nat) (b : Bool) (h : 1 ≤ N) :
    (gen_torsional_confs mol N b).2
      = { mol with confs := (mol.confs.map
            (fun c => setTorsion c (360 * ((N - 1 : ℕ) : ℚ) / (N : ℚ)))) } := by
  simp only [gen_torsional_confs]
  rw [foldl_expandFold_fst, List.nil_append, List.enum_map_snd]
  have he : ∀ c : Conformer,
      (angle_list N).foldl setTorsion c
        = setTorsion c (360 * ((N - 1 : ℕ) : ℚ) / (N : ℚ)) := by
    intro c
    unfold angle_list
    rw [foldl_setTorsion_range _ c N h]
    congr 1
    rw [Rat.mkRat_eq_div]
    push_cast
    ring
  rw [List.map_congr_left (fun c _ => he c)]

/-- C2 (witness for the amended theorem): evaluated on the concrete molecule
`exMol` with `numPoints = 2`. -/
theorem c2_witness :
    (gen_torsional_confs exMol 2 false).2
      = { exMol with confs := (exMol.confs.map
            (fun c => setTorsion c (360 * ((2 - 1 : ℕ) : ℚ) / (2 : ℚ)))) } :=
  c2_amended exMol 2 false (by norm_num)

/-! ### C4 -/

theorem expandNewConf_coords (n0 : String) (c : Conformer) (l : Nat)
    (p : Nat × ℚ) : (expandNewConf n0 c l p).coords = c.coords := rfl

theorem expandConf_snd_spec (angles : List (Nat × ℚ)) (conf0 : Conformer)
    (acc : List Conformer) :
    ∃ t, (expandConf angles conf0 acc).2 = acc ++ t
      ∧ t.map (fun c => c.coords.ang) = angles.map Prod.snd
      ∧ t.length = angles.length := by
  induction angles generalizing conf0 acc with
  | nil => exact ⟨[], by simp [expandConf], by simp, by simp⟩
  | cons p rest ih =>
      have hstep : expandConf (p :: rest) conf0 acc
          = expandConf rest (setTorsion conf0 p.2)
              (acc ++ [expandNewConf (getSD conf0.sdTags "CONFORMER_LABEL")
                (setTorsion conf0 p.2) acc.length p]) := rfl
      obtain ⟨t, ht, hmap, hlen⟩ :=
        ih (setTorsion conf0 p.2)
          (acc ++ [expandNewConf (getSD conf0.sdTags "CONFORMER_LABEL")
            (setTorsion conf0 p.2) acc.length p])
      refine ⟨expandNewConf (getSD conf0.sdTags "CONFORMER_LABEL")
        (setTorsion conf0 p.2) acc.length p :: t, ?_, ?_, ?_⟩
      · rw [hstep, ht]
        simp
      · rw [List.map_cons, hmap, List.map_cons]
        rw [expandNewConf_coords]
        rfl
      · simp [hlen]

theorem foldl_expandFold_snd (confs : List Conformer)
    (angles : List (Nat × ℚ)) (acc1 acc2 : List Conformer) :
    ∃ t, (confs.foldl (expandFold angles) (acc1, acc2)).2 = acc2 ++ t
      ∧ t.map (fun c => c.coords.ang)
          = (List.replicate confs.length (angles.map Prod.snd)).flatten
      ∧ t.length = confs.length * angles.length := by
  induction confs generalizing acc1 acc2 with
  | nil => exact ⟨[], by simp, by simp, by simp⟩
  | cons c rest ih =>
      rw [List.foldl_cons]
      have hstep : expandFold angles (acc1, acc2) c
          = (acc1 ++ [(expandConf angles c acc2).1],
             (expandConf angles c acc2).2) := rfl
      rw [hstep]
      obtain ⟨t0, ht0, hm0, hl0⟩ := expandConf_snd_spec angles c acc2
      obtain ⟨t1, ht1, hm1, hl1⟩ :=
        ih (acc1 ++ [(expandConf angles c acc2).1]) ((expandConf angles c acc2).2)
      refine ⟨t0 ++ t1, ?_, ?_, ?_⟩
      · rw [ht1, ht0, List.append_assoc]
      · rw [List.map_append, hm0, hm1, List.length_cons, List.replicate_succ,
          List.flatten_cons]
      · rw [List.length_append, hl0, hl1, List.length_cons]
        ring
/-- C4: `expand` (`gen_torsional_confs`) with `includeInput = false` on a
molecule with `K` conformers and `numPoints = N` returns exactly `K*N`
conformers whose driven dihedrals are, in order, exactly the nominal grid
angles (the grid `angle_list N` repeated once per input conformer — so the
`(k*N+i)`-th output conformer's dihedral is exactly `2πi/N`, i.e. `360i/N`
in the degree units of the embedding); with `includeInput = true` the count
is `K*N` plus the `K` originals, which are retained unchanged as the prefix
of the output. -/
theorem c4 (mol : Molecule) (N : Nat) :
    (gen_torsional_confs mol N false).1.confs.map (fun c => c.coords.ang)
        = (List.replicate mol.confs.length (angle_list N)).flatten
    ∧ (gen_torsional_confs mol N false).1.confs.length
        = mol.confs.length * N
    ∧ (gen_torsional_confs mol N true).1.confs.length
        = mol.confs.length * N + mol.confs.length
    ∧ (gen_torsional_confs mol N true).1.confs.take mol.confs.length
        = mol.confs := by
  have hangles : ((angle_list N).enum.map Prod.snd) = angle_list N :=
    List.enum_map_snd _
  have hlenA : (angle_list N).enum.length = N := by
    rw [List.enum_length]
    simp [angle_list]
  obtain ⟨tf, htf, hmf, hlf⟩ :=
    foldl_expandFold_snd mol.confs ((angle_list N).enum) [] []
  obtain ⟨tt, htt, hmt, hlt⟩ :=
    foldl_expandFold_snd mol.confs ((angle_list N).enum) [] mol.confs
  refine ⟨?_, ?_, ?_, ?_⟩
  · simp only [gen_torsional_confs, Bool.false_eq_true, if_false]
    rw [htf, List.nil_append, hmf, hangles]
  · simp only [gen_torsional_confs, Bool.false_eq_true, if_false]
    rw [htf, List.nil_append, hlf, hlenA]
  · simp only [gen_torsional_confs, if_true]
    rw [htt, List.length_append, hlt, hlenA]
    ring
  · simp only [gen_torsional_confs, if_true]
    rw [htt, List.take_left]

/-! ### C1 -/

theorem scanLabel_base (t : String) (a : ℚ) (c : Conformer) :
    (scanLabel t a c).coords.base = c.coords.base := rfl

theorem length_labelScanConfs (t : String) (as : List ℚ)
    (cs : List Conformer) :
    (labelScanConfs t as cs).length = cs.length := by
  simp only [labelScanConfs, List.length_append, List.length_map,
    List.length_zip, List.length_drop]
  omega

theorem labelScanConfs_map_base (t : String) (as : List ℚ)
    (cs : List Conformer) (h : as.length = cs.length) :
    (labelScanConfs t as cs).map (fun c => c.coords.base)
      = cs.map (fun c => c.coords.base) := by
  unfold labelScanConfs
  rw [List.map_append]
  have hdrop : cs.drop as.length = [] := by rw [h, List.drop_length]
  rw [hdrop]
  simp only [List.map_nil, List.append_nil, List.map_map]
  rw [show ((fun c => c.coords.base) ∘ fun (p : ℚ × Conformer) =>
      scanLabel t p.1 p.2)
    = ((fun c : Conformer => c.coords.base) ∘ Prod.snd) from rfl]
  rw [← List.map_map, List.map_snd_zip _ _ (le_of_eq h.symm)]

theorem mkScanConfs_map_base (scan : List Coords) :
    (mkScanConfs scan).map (fun c => c.coords.base)
      = scan.map (fun x => x.base) := by
  unfold mkScanConfs
  rw [List.map_map]
  rw [show ((fun c => c.coords.base) ∘ fun (p : ℕ × Coords) =>
      mkConf p.1 p.2)
    = ((fun x : Coords => x.base) ∘ Prod.snd) from rfl]
  rw [← List.map_map, List.enum_map_snd]

theorem length_mkScanConfs (scan : List Coords) :
    (mkScanConfs scan).length = scan.length := by
  simp [mkScanConfs, List.enum_length]

/-- C1 (counterexample): the scanner returns `numPoints + 1 = 2` conformers,
measuring 359° and 10° on the driven dihedral; the conformer nearest 360° is
the first one (|359−360| = 1 < |10−360|), yet the call keeps exactly the
first conformer (its opaque coordinate identifier `base = 0` survives) —
i.e. the code removed the *last* conformer in enumeration order, which here
is not the one nearest 360°. -/
theorem c1_counterexample :
    (get_best_conf exMol
        [{ base := 0, ang := 359 }, { base := 5, ang := 10 }] 1).confs.map
        (fun c => c.coords.base) = [0]
    ∧ |(359 : ℚ) - 360| < |(10 : ℚ) - 360| :=
  ⟨by decide, by norm_num⟩

/-- C1 (amended): when the external torsion scanner returns `numPoints + 1`
conformers, `scan` (`get_best_conf`) removes exactly one so that the result
has exactly `numPoints` conformers, and the removed conformer is the *last
one in enumeration order* (conf.py lines 170-173 delete the conformer left
in the exhausted loop variable), not the one whose measured dihedral is
nearest 360°: the survivors are exactly the scanner's conformers with the
final one dropped, in order. -/
theorem c1_amended (mol : Molecule) (scan : List Coords) (N : Nat)
    (h : scan.length = N + 1) :
    (get_best_conf mol scan N).confs.length = N
    ∧ (get_best_conf mol scan N).confs.map (fun c => c.coords.base)
        = scan.dropLast.map (fun x => x.base) := by
  have hlt : N < (mkScanConfs scan).length := by
    rw [length_mkScanConfs, h]
    omega
  have hsel : (if N < (mkScanConfs scan).length then (mkScanConfs scan).dropLast
      else mkScanConfs scan) = (mkScanConfs scan).dropLast := if_pos hlt
  have hdl : (mkScanConfs scan).dropLast.length = N := by
    rw [List.length_dropLast, length_mkScanConfs, h]
    omega
  have hal : (angle_list N).length = N := by simp [angle_list]
  constructor
  · simp only [get_best_conf, hsel]
    rw [length_labelScanConfs, hdl]
  · simp only [get_best_conf, hsel]
    rw [labelScanConfs_map_base _ _ _ (by rw [hal, hdl])]
    rw [List.map_dropLast, mkScanConfs_map_base, List.map_dropLast]

/-- C1 (witness for the amended theorem): evaluated at a scanner output of
two conformers with `numPoints = 1`. -/
theorem c1_witness :
    (get_best_conf exMol
        [{ base := 0, ang := 359 }, { base := 5, ang := 10 }] 1).confs.length
        = 1
    ∧ (get_best_conf exMol
        [{ base := 0, ang := 359 }, { base := 5, ang := 10 }] 1).confs.map
        (fun c => c.coords.base)
      = (([{ base := 0, ang := 359 },
           { base := 5, ang := 10 }] : List Coords)).dropLast.map
          (fun x => x.base) :=
  c1_amended exMol [{ base := 0, ang := 359 }, { base := 5, ang := 10 }] 1
    (by decide)
/-! ### C3 -/

theorem getTag_nil {α : Type} (k : String) :
    getTag ([] : List (String × α)) k = none := rfl

theorem getTag_cons {α : Type} (p : String × α) (l : List (String × α))
    (k : String) :
    getTag (p :: l) k
      = if (p.1 == k) = true then some p.2 else getTag l k := by
  unfold getTag
  rw [List.find?_cons]
  cases h : (p.1 == k) <;> simp [h]

theorem getTag_cons_self {α : Type} (k : String) (v : α)
    (l : List (String × α)) : getTag ((k, v) :: l) k = some v := by
  rw [getTag_cons]
  simp

theorem getTag_cons_ne {α : Type} (k0 : String) (v : α)
    (l : List (String × α)) (k : String) (h : k0 ≠ k) :
    getTag ((k0, v) :: l) k = getTag l k := by
  rw [getTag_cons]
  simp [h]

theorem pyRound_intCast (n : ℤ) : pyRound ((n : ℚ)) = n := by
  unfold pyRound
  simp [Rat.num_intCast, Rat.den_intCast, Int.fdiv_one]

theorem grid12 (i : ℕ) :
    (mkRat (360 * i) 12 : ℚ) = ((30 * i : ℤ) : ℚ) := by
  rw [Rat.mkRat_eq_div]
  push_cast
  ring

theorem scanLabel_mkConf (t : String) (a : ℚ) (i : Nat) (x : Coords) :
    scanLabel t a (mkConf i x)
      = { idx := i, coords := { base := x.base, ang := a },
          title := t ++ "_" ++ fmt02 i ++ ": Angle " ++ toString (pyRound a),
          sdTags := [("CONFORMER_LABEL", t ++ "_" ++ fmt02 i),
                     ("TORSION_ANGLE", toString (pyRound a))],
          dblTags := [("TORSION_ANGLE", ((pyRound a : ℤ) : ℚ))] } := rfl

theorem getElem_labelScanConfs (t : String) (as : List ℚ)
    (cs : List Conformer) (i : Nat) (h1 : i < as.length)
    (h2 : i < cs.length) (hw : i < (labelScanConfs t as cs).length) :
    (labelScanConfs t as cs).get ⟨i, hw⟩
      = scanLabel t (as.get ⟨i, h1⟩) (cs.get ⟨i, h2⟩) := by
  have hz : i < (as.zip cs).length := by
    rw [List.length_zip]
    exact lt_min h1 h2
  simp only [List.get_eq_getElem]
  unfold labelScanConfs
  rw [List.getElem_append_left (by rw [List.length_map]; exact hz)]
  rw [List.getElem_map, List.getElem_zip]

theorem get_mkScanConfs (scan : List Coords) (i : Nat) (h : i < scan.length)
    (hw : i < (mkScanConfs scan).length) :
    (mkScanConfs scan).get ⟨i, hw⟩ = mkConf i (scan.get ⟨i, h⟩) := by
  simp only [List.get_eq_getElem]
  unfold mkScanConfs
  rw [List.getElem_map, List.getElem_enum]

theorem get_angle_list (n i : Nat) (hw : i < (angle_list n).length) :
    (angle_list n).get ⟨i, hw⟩ = mkRat (360 * i) n := by
  simp only [List.get_eq_getElem]
  unfold angle_list
  rw [List.getElem_map, List.getElem_range]

theorem length_angle_list (n : Nat) : (angle_list n).length = n := by
  simp [angle_list]

theorem c3_core (t : String) (cs : List Conformer) (L : List Conformer)
    (hL : L = labelScanConfs t (angle_list 12) cs)
    (hlen : cs.length = 12)
    (hget : ∀ i, ∀ hw : i < cs.length, ∃ x : Coords,
      cs.get ⟨i, hw⟩ = mkConf i x) :
    L.length = 12
    ∧ ∀ i, ∀ hi : i < L.length,
        (L.get ⟨i, hi⟩).idx = i
        ∧ (L.get ⟨i, hi⟩).coords.ang = 360 * (i : ℚ) / 12
        ∧ getSD (L.get ⟨i, hi⟩).sdTags "TORSION_ANGLE"
            = toString (30 * (i : ℤ))
        ∧ getTag (L.get ⟨i, hi⟩).dblTags "TORSION_ANGLE"
            = some ((30 * (i : ℤ) : ℤ) : ℚ)
        ∧ getSD (L.get ⟨i, hi⟩).sdTags "CONFORMER_LABEL"
            = t ++ "_" ++ fmt02 i := by
  subst hL
  refine ⟨by rw [length_labelScanConfs, hlen], ?_⟩
  intro i hi
  have hi12 : i < 12 := by rwa [length_labelScanConfs, hlen] at hi
  have h1 : i < (angle_list 12).length := by rw [length_angle_list]; exact hi12
  have h2 : i < cs.length := by rw [hlen]; exact hi12
  obtain ⟨x, hx⟩ := hget i h2
  rw [getElem_labelScanConfs t (angle_list 12) cs i h1 h2 hi, get_angle_list,
    hx, scanLabel_mkConf]
  have hne : ("CONFORMER_LABEL" : String) ≠ "TORSION_ANGLE" := by decide
  refine ⟨rfl, ?_, ?_, ?_, ?_⟩
  · show (mkRat (360 * i) 12 : ℚ) = 360 * (i : ℚ) / 12
    rw [Rat.mkRat_eq_div]
    push_cast
    ring
  · show (getTag _ "TORSION_ANGLE").getD "" = _
    rw [getTag_cons_ne _ _ _ _ hne, getTag_cons_self]
    rw [grid12, pyRound_intCast]
    rfl
  · show getTag _ "TORSION_ANGLE" = _
    rw [getTag_cons_self, grid12, pyRound_intCast]
  · show (getTag _ "CONFORMER_LABEL").getD "" = _
    rw [getTag_cons_self]
    rfl

/-- C3: `scan(mol, dih, numPoints = 12)` (`get_best_conf`), whenever the
external scanner delivers the expected 12 or 13 (wraparound duplicate)
conformers, returns exactly 12 conformers; and the `i`-th conformer in
enumeration order has conformer index `i`, measured dihedral exactly the
nominal grid angle `2πi/12` (`360 i / 12` degrees, so exact trivially within
floating tolerance), `TORSION_ANGLE` equal to `round(i·30) = 30 i` both as a
rounded-integer-degree string tag and as a numeric scalar tag, and
`CONFORMER_LABEL` equal to `<title>_<2-digit i>`. -/
theorem c3 (mol : Molecule) (scan : List Coords)
    (h : scan.length = 12 ∨ scan.length = 13) :
    (get_best_conf mol scan 12).confs.length = 12
    ∧ ∀ i, ∀ hi : i < (get_best_conf mol scan 12).confs.length,
        ((get_best_conf mol scan 12).confs.get ⟨i, hi⟩).idx = i
        ∧ ((get_best_conf mol scan 12).confs.get ⟨i, hi⟩).coords.ang
            = 360 * (i : ℚ) / 12
        ∧ getSD ((get_best_conf mol scan 12).confs.get ⟨i, hi⟩).sdTags
            "TORSION_ANGLE" = toString (30 * (i : ℤ))
        ∧ getTag ((get_best_conf mol scan 12).confs.get ⟨i, hi⟩).dblTags
            "TORSION_ANGLE" = some ((30 * (i : ℤ) : ℤ) : ℚ)
        ∧ getSD ((get_best_conf mol scan 12).confs.get ⟨i, hi⟩).sdTags
            "CONFORMER_LABEL" = mol.title ++ "_" ++ fmt02 i := by
  rcases h with h12 | h13
  · have hsel : (if 12 < (mkScanConfs scan).length
        then (mkScanConfs scan).dropLast else mkScanConfs scan)
          = mkScanConfs scan := by
      rw [if_neg]
      rw [length_mkScanConfs, h12]
      omega
    refine c3_core mol.title (mkScanConfs scan) _
      (by simp only [get_best_conf]; rw [hsel])
      (by rw [length_mkScanConfs, h12]) ?_
    intro i hw
    have hs : i < scan.length := by rwa [length_mkScanConfs] at hw
    exact ⟨scan.get ⟨i, hs⟩, get_mkScanConfs scan i hs hw⟩
  · have hsel : (if 12 < (mkScanConfs scan).length
        then (mkScanConfs scan).dropLast else mkScanConfs scan)
          = (mkScanConfs scan).dropLast := by
      rw [if_pos]
      rw [length_mkScanConfs, h13]
      omega
    refine c3_core mol.title ((mkScanConfs scan).dropLast) _
      (by simp only [get_best_conf]; rw [hsel])
      (by rw [List.length_dropLast, length_mkScanConfs, h13]) ?_
    intro i hw
    have hw2 : i < (mkScanConfs scan).length := by
      rw [List.length_dropLast] at hw
      omega
    have hs : i < scan.length := by rwa [length_mkScanConfs] at hw2
    refine ⟨scan.get ⟨i, hs⟩, ?_⟩
    have hmain := get_mkScanConfs scan i hs hw2
    simp only [List.get_eq_getElem] at hmain ⊢
    rw [List.getElem_dropLast]
    exact hmain

/-- C3 (witness): evaluated at the concrete molecule `exMol` and a concrete
scanner output of 13 conformers. -/
theorem c3_witness :
    (get_best_conf exMol exScan13 12).confs.length = 12
    ∧ ∀ i, ∀ hi : i < (get_best_conf exMol exScan13 12).confs.length,
        ((get_best_conf exMol exScan13 12).confs.get ⟨i, hi⟩).idx = i
        ∧ ((get_best_conf exMol exScan13 12).confs.get ⟨i, hi⟩).coords.ang
            = 360 * (i : ℚ) / 12
        ∧ getSD ((get_best_conf exMol exScan13 12).confs.get ⟨i, hi⟩).sdTags
            "TORSION_ANGLE" = toString (30 * (i : ℤ))
        ∧ getTag ((get_best_conf exMol exScan13 12).confs.get ⟨i, hi⟩).dblTags
            "TORSION_ANGLE" = some ((30 * (i : ℤ) : ℤ) : ℚ)
        ∧ getSD ((get_best_conf exMol exScan13 12).confs.get ⟨i, hi⟩).sdTags
            "CONFORMER_LABEL" = exMol.title ++ "_" ++ fmt02 i :=
  c3 exMol exScan13 (Or.inr (by decide))
/-! ### Bridge between the integer-arithmetic rounding and the
floor-and-fraction formulation of Python round -/

theorem pyRound_eq (q : ℚ) :
    pyRound q = if q - ⌊q⌋ < 1/2 then ⌊q⌋
      else if 1/2 < q - ⌊q⌋ then ⌊q⌋ + 1
      else if ⌊q⌋ % 2 = 0 then ⌊q⌋ else ⌊q⌋ + 1 := by
  have hfd : q.num.fdiv q.den = ⌊q⌋ := by
    rw [Rat.floor_def]
    exact Int.fdiv_eq_ediv _ (by positivity)
  have hd0 : (0:ℚ) < (q.den:ℚ) := by exact_mod_cast q.den_pos
  have hqd : q * ((q.den : ℚ)) = (q.num : ℚ) := by
    calc q * ((q.den : ℚ))
        = ((q.num : ℚ) / (q.den : ℚ)) * (q.den : ℚ) := by
          rw [Rat.num_div_den]
      _ = (q.num : ℚ) := div_mul_cancel₀ _ (ne_of_gt hd0)
  have hcast : ((2 * (q.num - ⌊q⌋ * q.den) : ℤ) : ℚ)
      = 2 * (q - (⌊q⌋:ℚ)) * (q.den:ℚ) := by
    push_cast
    rw [← hqd]
    ring
  have hiffA : (2 * (q.num - ⌊q⌋ * q.den) < (q.den:ℤ)) ↔ (q - ⌊q⌋ < 1/2) := by
    rw [← @Int.cast_lt ℚ _ _ _ _ _, hcast]
    push_cast
    constructor <;> intro hx <;> nlinarith [hd0, hx]
  have hiffB : ((q.den:ℤ) < 2 * (q.num - ⌊q⌋ * q.den)) ↔ (1/2 < q - ⌊q⌋) := by
    rw [← @Int.cast_lt ℚ _ _ _ _ _, hcast]
    push_cast
    constructor <;> intro hx <;> nlinarith [hd0, hx]
  unfold pyRound
  rw [hfd]
  by_cases hA : (2 * (q.num - ⌊q⌋ * q.den) < (q.den:ℤ))
  · rw [if_pos hA, if_pos (hiffA.mp hA)]
  · rw [if_neg hA, if_neg (fun hc => hA (hiffA.mpr hc))]
    by_cases hB : ((q.den:ℤ) < 2 * (q.num - ⌊q⌋ * q.den))
    · rw [if_pos hB, if_pos (hiffB.mp hB)]
    · rw [if_neg hB, if_neg (fun hc => hB (hiffB.mpr hc))]

/-! ### Evaluation helpers for the two paths of gen_starting_confs -/

theorem gen_le_one (mol : Molecule)
    (omega : Option (List (Option Nat) × List Coords)) (b : Bool)
    (n : Nat) (hn : n ≤ 1)
    (hhas : hasSD mol.sd TAGNAME = true)
    (xs : List ℤ) (hp : parseDih mol = some xs) (hxs : 4 ≤ xs.length) :
    ∃ M, gen_starting_confs mol omega b n
      = .ok { mol with
              markers := M,
              confs := (mol.confs.enum.map (fun p =>
                { p.2 with
                  sdTags := setTag p.2.sdTags "CONFORMER_LABEL"
                    (mol.title ++ "_" ++ parentPart mol ++ "_" ++ fmt02 p.1),
                  title := mol.title ++ "_" ++ parentPart mol ++ "_"
                    ++ fmt02 p.1 })) } := by
  refine ⟨markersWith mol.markers ((xs.map (fun x => x - 1)).getD 0 0)
    ((xs.map (fun x => x - 1)).getD 1 0) ((xs.map (fun x => x - 1)).getD 2 0)
    ((xs.map (fun x => x - 1)).getD 3 0), ?_⟩
  simp only [gen_starting_confs, hhas, hp, eq_self_iff_true, if_true,
    List.length_map]
  rw [if_neg (by omega), if_neg (by omega)]

theorem setTag_sd3 (vF vPM vAP : String) :
    setTag (setTag (setTag ([] : List (String × String)) TAGNAME vF)
        "TORSION_ATOMS_ParentMol" vPM) "TORSION_ATOMPROP" vAP
      = [(TAGNAME, vF), ("TORSION_ATOMS_ParentMol", vPM),
         ("TORSION_ATOMPROP", vAP)] := rfl

theorem gen_gt_one (mol : Molecule) (atoms : List (Option Nat))
    (newCoords : List Coords) (b : Bool) (n : Nat) (hn : 1 < n)
    (hhas : hasSD mol.sd TAGNAME = true)
    (xs : List ℤ) (hp : parseDih mol = some xs) (hxs : 4 ≤ xs.length) :
    gen_starting_confs mol (some (atoms, newCoords)) b n
      = .ok { title := mol.title,
              natoms := atoms.length,
              markers := atoms,
              sd := [(TAGNAME, String.intercalate " "
                        ((reassign atoms).map (fun x => toString (x + 1)))),
                     ("TORSION_ATOMS_ParentMol",
                       getSD mol.sd "TORSION_ATOMS_ParentMol"),
                     ("TORSION_ATOMPROP",
                       "cs1:0:1;1%"
                       ++ toString ((reassign atoms).getD 0 (-1) + 1)
                       ++ ":1%" ++ toString ((reassign atoms).getD 1 (-1) + 1)
                       ++ ":1%" ++ toString ((reassign atoms).getD 2 (-1) + 1)
                       ++ ":1%"
                       ++ toString ((reassign atoms).getD 3 (-1) + 1))],
              confs := ((newCoords.enum.map
                (fun p => mkConf p.1 p.2)).enum.map (fun p =>
                  { p.2 with
                    sdTags := setTag p.2.sdTags "CONFORMER_LABEL"
                      (mol.title ++ "_" ++ parentPart mol ++ "_"
                        ++ fmt02 p.1),
                    title := mol.title ++ "_" ++ parentPart mol ++ "_"
                      ++ fmt02 p.1 })) } := by
  simp only [gen_starting_confs, hhas, hp, eq_self_iff_true, if_true,
    List.length_map]
  rw [if_neg (by omega), if_pos hn]
  rw [setTag_sd3]
/-! ### Characterization of the marker read-back loop -/

theorem reassignAux_length (as : List (Option Nat)) (i : Nat) (nd : List ℤ) :
    (reassignAux i as nd).length = nd.length := by
  induction as generalizing i nd with
  | nil => rfl
  | cons a rest ih =>
      cases a with
      | none => simpa [reassignAux] using ih (i + 1) nd
      | some k => simpa [reassignAux, List.length_set]
          using ih (i + 1) (nd.set k (i : ℤ))

theorem reassignAux_get_of_not_mem (as : List (Option Nat)) (k : Nat)
    (h : ¬ (some k) ∈ as) (i : Nat) (nd : List ℤ) :
    (reassignAux i as nd)[k]? = nd[k]? := by
  induction as generalizing i nd with
  | nil => rfl
  | cons a rest ih =>
      have hrest : ¬ (some k) ∈ rest := fun hm =>
        h (List.mem_cons_of_mem a hm)
      cases a with
      | none =>
          have hstep : reassignAux i (none :: rest) nd
              = reassignAux (i + 1) rest nd := rfl
          rw [hstep, ih hrest]
      | some k2 =>
          have hk2 : k2 ≠ k := fun he =>
            h (he ▸ List.mem_cons_self (some k2) rest)
          have hstep : reassignAux i (some k2 :: rest) nd
              = reassignAux (i + 1) rest (nd.set k2 (i : ℤ)) := rfl
          rw [hstep, ih hrest, List.getElem?_set_ne hk2]

theorem reassignAux_get_unique (as : List (Option Nat)) (k : Nat)
    (pk : Nat) (hget : as[pk]? = some (some k))
    (huniq : ∀ q, as[q]? = some (some k) → q = pk)
    (i : Nat) (nd : List ℤ) (hnd : k < nd.length) :
    (reassignAux i as nd)[k]? = some (((i + pk : ℕ) : ℤ)) := by
  induction as generalizing i nd pk with
  | nil => simp at hget
  | cons a rest ih =>
      cases pk with
      | zero =>
          have ha : a = some k := by
            rw [List.getElem?_cons_zero] at hget
            exact Option.some.inj hget
          subst ha
          have hnm : ¬ (some k) ∈ rest := by
            intro hmem
            obtain ⟨q, hq⟩ := List.getElem?_of_mem hmem
            have := huniq (q + 1) (by rw [List.getElem?_cons_succ]; exact hq)
            omega
          have hstep : reassignAux i (some k :: rest) nd
              = reassignAux (i + 1) rest (nd.set k (i : ℤ)) := rfl
          rw [hstep, reassignAux_get_of_not_mem rest k hnm,
            List.getElem?_set_self hnd]
          simp
      | succ pq =>
          have hget2 : rest[pq]? = some (some k) := by
            rw [List.getElem?_cons_succ] at hget
            exact hget
          have huniq2 : ∀ q, rest[q]? = some (some k) → q = pq := by
            intro q hq
            have := huniq (q + 1) (by rw [List.getElem?_cons_succ]; exact hq)
            omega
          have harith : ((i + 1) + pq : ℕ) = (i + (pq + 1) : ℕ) := by omega
          cases a with
          | none =>
              have hstep : reassignAux i (none :: rest) nd
                  = reassignAux (i + 1) rest nd := rfl
              rw [hstep, ih pq hget2 huniq2 (i + 1) nd hnd, harith]
          | some k2 =>
              have hstep : reassignAux i (some k2 :: rest) nd
                  = reassignAux (i + 1) rest (nd.set k2 (i : ℤ)) := rfl
              rw [hstep, ih pq hget2 huniq2 (i + 1) (nd.set k2 (i : ℤ))
                (by rw [List.length_set]; exact hnd), harith]

theorem reassign_eq (atoms : List (Option Nat)) (p0 p1 p2 p3 : Nat)
    (h0 : atoms[p0]? = some (some 0))
    (hu0 : ∀ q, atoms[q]? = some (some 0) → q = p0)
    (h1 : atoms[p1]? = some (some 1))
    (hu1 : ∀ q, atoms[q]? = some (some 1) → q = p1)
    (h2 : atoms[p2]? = some (some 2))
    (hu2 : ∀ q, atoms[q]? = some (some 2) → q = p2)
    (h3 : atoms[p3]? = some (some 3))
    (hu3 : ∀ q, atoms[q]? = some (some 3) → q = p3) :
    reassign atoms = [(p0 : ℤ), (p1 : ℤ), (p2 : ℤ), (p3 : ℤ)] := by
  have hlen : (reassign atoms).length = 4 :=
    reassignAux_length atoms 0 [-1, -1, -1, -1]
  have g0 : (reassign atoms)[0]? = some ((p0 : ℤ)) := by
    have := reassignAux_get_unique atoms 0 p0 h0 hu0 0 [-1, -1, -1, -1]
      (by norm_num)
    simpa [reassign] using this
  have g1 : (reassign atoms)[1]? = some ((p1 : ℤ)) := by
    have := reassignAux_get_unique atoms 1 p1 h1 hu1 0 [-1, -1, -1, -1]
      (by norm_num)
    simpa [reassign] using this
  have g2 : (reassign atoms)[2]? = some ((p2 : ℤ)) := by
    have := reassignAux_get_unique atoms 2 p2 h2 hu2 0 [-1, -1, -1, -1]
      (by norm_num)
    simpa [reassign] using this
  have g3 : (reassign atoms)[3]? = some ((p3 : ℤ)) := by
    have := reassignAux_get_unique atoms 3 p3 h3 hu3 0 [-1, -1, -1, -1]
      (by norm_num)
    simpa [reassign] using this
  apply List.ext_getElem?
  intro n
  match n with
  | 0 => simpa using g0
  | 1 => simpa using g1
  | 2 => simpa using g2
  | 3 => simpa using g3
  | (m + 4) =>
      rw [List.getElem?_eq_none (by omega), List.getElem?_eq_none (by simp)]
theorem enum_map_proj_snd {β : Type} (l : List Conformer)
    (g : ℕ × Conformer → Conformer) (f : Conformer → β)
    (hg : ∀ p, f (g p) = f p.2) :
    (l.enum.map g).map f = l.map f := by
  rw [List.map_map]
  rw [show (f ∘ g) = (fun p : ℕ × Conformer => f p.2) from funext hg]
  rw [show (fun p : ℕ × Conformer => f p.2) = (f ∘ Prod.snd) from rfl]
  rw [← List.map_map, List.enum_map_snd]

theorem enum_map_proj_fst {β : Type} (l : List Conformer)
    (g : ℕ × Conformer → Conformer) (f : Conformer → β) (F : ℕ → β)
    (hg : ∀ p, f (g p) = F p.1) :
    (l.enum.map g).map f = (List.range l.length).map F := by
  rw [List.map_map]
  rw [show (f ∘ g) = (fun p : ℕ × Conformer => F p.1) from funext hg]
  rw [show (fun p : ℕ × Conformer => F p.1) = (F ∘ Prod.fst) from rfl]
  rw [← List.map_map, List.enum_map_fst]

theorem getTag_map_overwrite_ne {α : Type} (l : List (String × α))
    (k0 k : String) (v : α) (h : k0 ≠ k) :
    getTag (l.map (fun q => if (q.1 == k0) = true then (k0, v) else q)) k
      = getTag l k := by
  induction l with
  | nil => rfl
  | cons p rest ih =>
      by_cases hp : p.1 = k0
      · have hf : (if ((p.1 : String) == k0) = true then (k0, v) else p)
            = (k0, v) := if_pos (by simp [hp])
        rw [List.map_cons, hf, getTag_cons, getTag_cons]
        rw [show ((k0 : String) == k) = false from by simp [h]]
        rw [show ((p.1 : String) == k) = false from by simp [hp, h]]
        simpa using ih
      · have hf : (if ((p.1 : String) == k0) = true then (k0, v) else p)
            = p := if_neg (by simp [hp])
        rw [List.map_cons, hf, getTag_cons, getTag_cons]
        by_cases hpk : p.1 = k
        · rw [show ((p.1 : String) == k) = true from by simp [hpk]]
          rfl
        · rw [show ((p.1 : String) == k) = false from by simp [hpk]]
          simpa using ih

theorem getTag_map_overwrite_self {α : Type} (l : List (String × α))
    (k0 : String) (v : α)
    (hany : l.any (fun q => q.1 == k0) = true) :
    getTag (l.map (fun q => if (q.1 == k0) = true then (k0, v) else q)) k0
      = some v := by
  induction l with
  | nil => simp at hany
  | cons p rest ih =>
      by_cases hp : p.1 = k0
      · have hf : (if ((p.1 : String) == k0) = true then (k0, v) else p)
            = (k0, v) := if_pos (by simp [hp])
        rw [List.map_cons, hf, getTag_cons]
        simp
      · have hf : (if ((p.1 : String) == k0) = true then (k0, v) else p)
            = p := if_neg (by simp [hp])
        have hrest : rest.any (fun q => q.1 == k0) = true := by
          rw [List.any_cons] at hany
          simpa [hp] using hany
        rw [List.map_cons, hf, getTag_cons]
        rw [show ((p.1 : String) == k0) = false from by simp [hp]]
        simpa using ih hrest

theorem getTag_append_right_ne {α : Type} (l : List (String × α))
    (k0 k : String) (v : α) (h : k0 ≠ k) :
    getTag (l ++ [(k0, v)]) k = getTag l k := by
  induction l with
  | nil =>
      rw [List.nil_append, getTag_cons]
      rw [show ((k0 : String) == k) = false from by simp [h]]
      rfl
  | cons p rest ih =>
      rw [List.cons_append, getTag_cons, getTag_cons]
      by_cases hpk : p.1 = k
      · rw [show ((p.1 : String) == k) = true from by simp [hpk]]
        rfl
      · rw [show ((p.1 : String) == k) = false from by simp [hpk]]
        simpa using ih

theorem getTag_append_right_self {α : Type} (l : List (String × α))
    (k : String) (v : α)
    (hnone : l.any (fun q => q.1 == k) = false) :
    getTag (l ++ [(k, v)]) k = some v := by
  induction l with
  | nil =>
      rw [List.nil_append]
      exact getTag_cons_self k v []
  | cons p rest ih =>
      rw [List.any_cons] at hnone
      have hp : ((p.1 : String) == k) = false := by
        cases hh : ((p.1 : String) == k) with
        | false => rfl
        | true => rw [hh] at hnone; simp at hnone
      have hrest : rest.any (fun q => q.1 == k) = false := by
        rw [hp] at hnone
        simpa using hnone
      rw [List.cons_append, getTag_cons, hp]
      simpa using ih hrest

theorem getTag_setTag_self {α : Type} (l : List (String × α)) (k : String)
    (v : α) : getTag (setTag l k v) k = some v := by
  unfold setTag
  cases hany : l.any (fun q => q.1 == k) with
  | true =>
      rw [if_pos rfl]
      exact getTag_map_overwrite_self l k v hany
  | false =>
      rw [if_neg Bool.false_ne_true]
      exact getTag_append_right_self l k v hany

theorem getTag_setTag_ne {α : Type} (l : List (String × α))
    (k0 k : String) (v : α) (h : k0 ≠ k) :
    getTag (setTag l k0 v) k = getTag l k := by
  unfold setTag
  cases hany : l.any (fun q => q.1 == k0) with
  | true =>
      rw [if_pos rfl]
      exact getTag_map_overwrite_ne l k0 k v h
  | false =>
      rw [if_neg Bool.false_ne_true]
      exact getTag_append_right_ne l k0 k v h

/-! ### C5 -/

/-- C5 (counterexample): `generate` (`gen_starting_confs`) with
`numConformers = 1` does not return the single conformer with "same title,
same tags": on the concrete molecule `exMol`, whose conformer is titled
"orig" and carries the `CONFORMER_LABEL` tag "lbl", the returned conformer
is titled with the derived conformer label and its `CONFORMER_LABEL` tag is
overwritten with it — the final labeling loop of conf.py lines 131-139 runs
regardless of `num_conformers`. -/
theorem c5_counterexample :
    (gen_starting_confs exMol none true 1).toOption.map
        (fun m => m.confs.map (fun c => c.title)) = some ["m_7_8_00"]
    ∧ exMol.confs.map (fun c => c.title) = ["orig"]
    ∧ (gen_starting_confs exMol none true 1).toOption.map
        (fun m => m.confs.map (fun c => getSD c.sdTags "CONFORMER_LABEL"))
        = some ["m_7_8_00"]
    ∧ exMol.confs.map (fun c => getSD c.sdTags "CONFORMER_LABEL")
        = ["lbl"] := by
  exact ⟨by decide, by decide, by decide, by decide⟩

/-- C5 (amended): on a validly tagged molecule, `generate`
(`gen_starting_confs`) with `numConformers = 1` skips sampling and returns a
molecule with the input's title, the input's molecule-level tags (so the
`TORSION_ATOMS_FRAGMENT` DihedralSpec is unchanged) and the input's
conformer coordinates unchanged; but each conformer's title and its
`CONFORMER_LABEL` tag are both rewritten to the derived label
`<title>_<parent-tag>_<2-digit index>`, so the conformer is not returned
with "same title, same tags". -/
theorem c5_amended (mol : Molecule)
    (omega : Option (List (Option Nat) × List Coords)) (b : Bool)
    (hhas : hasSD mol.sd TAGNAME = true)
    (xs : List ℤ) (hp : parseDih mol = some xs) (hxs : 4 ≤ xs.length) :
    ∃ res, gen_starting_confs mol omega b 1 = .ok res
      ∧ res.title = mol.title
      ∧ res.sd = mol.sd
      ∧ res.confs.map (fun c => c.coords) = mol.confs.map (fun c => c.coords)
      ∧ getSD res.sd TAGNAME = getSD mol.sd TAGNAME
      ∧ res.confs.map (fun c => c.title)
          = (List.range mol.confs.length).map (fun i =>
              mol.title ++ "_" ++ parentPart mol ++ "_" ++ fmt02 i)
      ∧ res.confs.map (fun c => getSD c.sdTags "CONFORMER_LABEL")
          = (List.range mol.confs.length).map (fun i =>
              mol.title ++ "_" ++ parentPart mol ++ "_" ++ fmt02 i) := by
  obtain ⟨M, hM⟩ := gen_le_one mol omega b 1 (by omega) hhas xs hp hxs
  refine ⟨_, hM, rfl, rfl, ?_, rfl, ?_, ?_⟩
  · exact enum_map_proj_snd mol.confs _ _ (fun p => rfl)
  · exact enum_map_proj_fst mol.confs _ _ _ (fun p => rfl)
  · refine enum_map_proj_fst mol.confs _ _ _ ?_
    intro p
    show getSD (setTag p.2.sdTags "CONFORMER_LABEL"
      (mol.title ++ "_" ++ parentPart mol ++ "_" ++ fmt02 p.1))
      "CONFORMER_LABEL" = _
    unfold getSD
    rw [getTag_setTag_self]
    rfl

/-- C5 (witness for the amended theorem): evaluated on `exMol`. -/
theorem c5_witness :
    ∃ res, gen_starting_confs exMol none true 1 = .ok res
      ∧ res.title = exMol.title
      ∧ res.sd = exMol.sd
      ∧ res.confs.map (fun c => c.coords)
          = exMol.confs.map (fun c => c.coords)
      ∧ getSD res.sd TAGNAME = getSD exMol.sd TAGNAME
      ∧ res.confs.map (fun c => c.title)
          = (List.range exMol.confs.length).map (fun i =>
              exMol.title ++ "_" ++ parentPart exMol ++ "_" ++ fmt02 i)
      ∧ res.confs.map (fun c => getSD c.sdTags "CONFORMER_LABEL")
          = (List.range exMol.confs.length).map (fun i =>
              exMol.title ++ "_" ++ parentPart exMol ++ "_" ++ fmt02 i) :=
  c5_amended exMol none true (by decide) [1, 2, 3, 4] (by decide) (by decide)

/-! ### C6 -/

/-- C6 (counterexample): the dihedral tag of `exMol5` holds five tokens
("1 2 3 4 5"), and token 5 is out of range for its 4 atoms — by the claim
the dihedral-locating step should fail with `MalformedTagError` — yet
`gen_starting_confs` succeeds: no validation of the token count or range is
performed (conf.py line 54 parses, lines 55-63 index only the first four). -/
theorem c6_counterexample :
    (gen_starting_confs exMol5 none true 1).isOk = true
    ∧ exMol5.natoms = 4 := by
  exact ⟨by decide, rfl⟩

/-- C6 (amended): there is no `MalformedTagError`.  With the tag present,
a non-integer token fails with the int-parse `ValueError` of Python `int`;
fewer than 4 tokens fail with an `IndexError` from indexing
`dihedralAtomIndices[3]`; and 4 or more tokens — including more than 4, and
indices outside the molecule's atom range — are accepted without any
validation (shown here on the sampling-free `numConformers ≤ 1` path). -/
theorem c6_amended (mol : Molecule)
    (omega : Option (List (Option Nat) × List Coords)) (b : Bool) (n : Nat)
    (hhas : hasSD mol.sd TAGNAME = true) :
    (parseDih mol = none →
        gen_starting_confs mol omega b n = .error .intParse)
    ∧ (∀ xs, parseDih mol = some xs → xs.length < 4 →
        gen_starting_confs mol omega b n = .error .indexError)
    ∧ (∀ xs, parseDih mol = some xs → 4 ≤ xs.length → n ≤ 1 →
        ∃ res, gen_starting_confs mol omega b n = .ok res) := by
  refine ⟨?_, ?_, ?_⟩
  · intro hp
    simp only [gen_starting_confs, hhas, hp, eq_self_iff_true, if_true]
  · intro xs hp hlt
    simp only [gen_starting_confs, hhas, hp, eq_self_iff_true, if_true,
      List.length_map]
    rw [if_pos hlt]
  · intro xs hp hge hn
    obtain ⟨M, hM⟩ := gen_le_one mol omega b n hn hhas xs hp hge
    exact ⟨_, hM⟩

/-- C6 (witness for the amended theorem): evaluated on `exMol`. -/
theorem c6_witness :
    (parseDih exMol = none →
        gen_starting_confs exMol none true 1 = .error .intParse)
    ∧ (∀ xs, parseDih exMol = some xs → xs.length < 4 →
        gen_starting_confs exMol none true 1 = .error .indexError)
    ∧ (∀ xs, parseDih exMol = some xs → 4 ≤ xs.length → 1 ≤ 1 →
        ∃ res, gen_starting_confs exMol none true 1 = .ok res) :=
  c6_amended exMol none true 1 (by decide)

/-! ### C8 -/

/-- C8: on every successful sampling call (`numConformers > 1`, sampler
succeeds) of `generate` (`gen_starting_confs`), when the sampler's output
atoms carry the transient markers `0..3` at unique positions
`p0, p1, p2, p3`, the returned molecule's metadata holds exactly the
re-derived 1-based indices: `TORSION_ATOMS_FRAGMENT` is the four
whitespace-separated 1-based indices, `TORSION_ATOMS_ParentMol` is copied
from the input unchanged, and `TORSION_ATOMPROP` is the string
`cs1:0:1;1%<a>:1%<b>:1%<c>:1%<d>` built from the same four updated 1-based
indices. -/
theorem c8 (mol : Molecule) (atoms : List (Option Nat))
    (newCoords : List Coords) (b : Bool) (n : Nat) (hn : 1 < n)
    (hhas : hasSD mol.sd TAGNAME = true)
    (xs : List ℤ) (hp : parseDih mol = some xs) (hxs : 4 ≤ xs.length)
    (p0 p1 p2 p3 : Nat)
    (h0 : atoms[p0]? = some (some 0))
    (hu0 : ∀ q, atoms[q]? = some (some 0) → q = p0)
    (h1 : atoms[p1]? = some (some 1))
    (hu1 : ∀ q, atoms[q]? = some (some 1) → q = p1)
    (h2 : atoms[p2]? = some (some 2))
    (hu2 : ∀ q, atoms[q]? = some (some 2) → q = p2)
    (h3 : atoms[p3]? = some (some 3))
    (hu3 : ∀ q, atoms[q]? = some (some 3) → q = p3) :
    ∃ res, gen_starting_confs mol (some (atoms, newCoords)) b n = .ok res
      ∧ getSD res.sd TAGNAME
          = toString ((p0 : ℤ) + 1) ++ " " ++ toString ((p1 : ℤ) + 1)
            ++ " " ++ toString ((p2 : ℤ) + 1) ++ " "
            ++ toString ((p3 : ℤ) + 1)
      ∧ getSD res.sd "TORSION_ATOMS_ParentMol"
          = getSD mol.sd "TORSION_ATOMS_ParentMol"
      ∧ getSD res.sd "TORSION_ATOMPROP"
          = "cs1:0:1;1%" ++ toString ((p0 : ℤ) + 1) ++ ":1%"
            ++ toString ((p1 : ℤ) + 1) ++ ":1%" ++ toString ((p2 : ℤ) + 1)
            ++ ":1%" ++ toString ((p3 : ℤ) + 1) := by
  have hre : reassign atoms = [(p0 : ℤ), (p1 : ℤ), (p2 : ℤ), (p3 : ℤ)] :=
    reassign_eq atoms p0 p1 p2 p3 h0 hu0 h1 hu1 h2 hu2 h3 hu3
  refine ⟨_, gen_gt_one mol atoms newCoords b n hn hhas xs hp hxs,
    ?_, ?_, ?_⟩
  · show (getTag _ TAGNAME).getD "" = _
    rw [getTag_cons_self]
    rw [hre]
    simp [String.intercalate, String.intercalate.go]
  · show (getTag _ "TORSION_ATOMS_ParentMol").getD "" = _
    rw [getTag_cons_ne _ _ _ _ (by decide), getTag_cons_self]
    rfl
  · show (getTag _ "TORSION_ATOMPROP").getD "" = _
    rw [getTag_cons_ne _ _ _ _ (by decide),
      getTag_cons_ne _ _ _ _ (by decide), getTag_cons_self]
    rw [hre]
    rfl

/-- C8 (witness): evaluated with a concrete 5-atom sampler output carrying
markers 0,1,2,3 at positions 2,3,0,4. -/
theorem c8_witness :
    ∃ res, gen_starting_confs exMol
        (some ([some 2, none, some 0, some 1, some 3],
          [{ base := 9, ang := 5 }])) true 5 = .ok res
      ∧ getSD res.sd TAGNAME
          = toString ((2 : ℤ) + 1) ++ " " ++ toString ((3 : ℤ) + 1)
            ++ " " ++ toString ((0 : ℤ) + 1) ++ " "
            ++ toString ((4 : ℤ) + 1)
      ∧ getSD res.sd "TORSION_ATOMS_ParentMol"
          = getSD exMol.sd "TORSION_ATOMS_ParentMol"
      ∧ getSD res.sd "TORSION_ATOMPROP"
          = "cs1:0:1;1%" ++ toString ((2 : ℤ) + 1) ++ ":1%"
            ++ toString ((3 : ℤ) + 1) ++ ":1%" ++ toString ((0 : ℤ) + 1)
            ++ ":1%" ++ toString ((4 : ℤ) + 1) := by
  have hbound : ∀ q : Nat, ¬ q < 5 →
      ([some 2, none, some 0, some 1, some 3] :
        List (Option Nat))[q]? = none := by
    intro q hc
    rw [List.getElem?_eq_none (by simp; omega)]
  have hu0 : ∀ q, ([some 2, none, some 0, some 1, some 3] :
      List (Option Nat))[q]? = some (some 0) → q = 2 := by
    intro q hq
    have hq5 : q < 5 := by
      by_contra hc
      rw [hbound q hc] at hq
      exact Option.noConfusion hq
    interval_cases q <;> first | rfl | simp at hq
  have hu1 : ∀ q, ([some 2, none, some 0, some 1, some 3] :
      List (Option Nat))[q]? = some (some 1) → q = 3 := by
    intro q hq
    have hq5 : q < 5 := by
      by_contra hc
      rw [hbound q hc] at hq
      exact Option.noConfusion hq
    interval_cases q <;> first | rfl | simp at hq
  have hu2 : ∀ q, ([some 2, none, some 0, some 1, some 3] :
      List (Option Nat))[q]? = some (some 2) → q = 0 := by
    intro q hq
    have hq5 : q < 5 := by
      by_contra hc
      rw [hbound q hc] at hq
      exact Option.noConfusion hq
    interval_cases q <;> first | rfl | simp at hq
  have hu3 : ∀ q, ([some 2, none, some 0, some 1, some 3] :
      List (Option Nat))[q]? = some (some 3) → q = 4 := by
    intro q hq
    have hq5 : q < 5 := by
      by_contra hc
      rw [hbound q hc] at hq
      exact Option.noConfusion hq
    interval_cases q <;> first | rfl | simp at hq
  exact c8 exMol [some 2, none, some 0, some 1, some 3]
    [{ base := 9, ang := 5 }] true 5 (by omega) (by decide)
    [1, 2, 3, 4] (by decide) (by decide)
    2 3 0 4
    (by decide) hu0
    (by decide) hu1
    (by decide) hu2
    (by decide) hu3

/-! ### C10 -/

/-- C10: on every successful sampling call (`numConformers > 1`) of
`generate` (`gen_starting_confs`), the molecule-level SD data of the result
consists of exactly the three tags `TORSION_ATOMS_FRAGMENT`,
`TORSION_ATOMS_ParentMol` and `TORSION_ATOMPROP` (in that order):
`OEClearSDData` (conf.py line 118) wipes all molecule-level tags before the
three are rewritten, so no caller-supplied molecule-level tag survives. -/
theorem c10 (mol : Molecule) (atoms : List (Option Nat))
    (newCoords : List Coords) (b : Bool) (n : Nat) (hn : 1 < n)
    (hhas : hasSD mol.sd TAGNAME = true)
    (xs : List ℤ) (hp : parseDih mol = some xs) (hxs : 4 ≤ xs.length) :
    ∃ res, gen_starting_confs mol (some (atoms, newCoords)) b n = .ok res
      ∧ res.sd.map Prod.fst
          = [TAGNAME, "TORSION_ATOMS_ParentMol", "TORSION_ATOMPROP"]
      ∧ ∀ k, k ≠ TAGNAME → k ≠ "TORSION_ATOMS_ParentMol" →
          k ≠ "TORSION_ATOMPROP" → getTag res.sd k = none := by
  refine ⟨_, gen_gt_one mol atoms newCoords b n hn hhas xs hp hxs,
    rfl, ?_⟩
  intro k hk1 hk2 hk3
  rw [getTag_cons_ne _ _ _ _ (Ne.symm hk1),
    getTag_cons_ne _ _ _ _ (Ne.symm hk2),
    getTag_cons_ne _ _ _ _ (Ne.symm hk3), getTag_nil]

/-- C10 (witness): evaluated on `exMol` (which carries the three torsion
tags) with a concrete sampler output. -/
theorem c10_witness :
    ∃ res, gen_starting_confs exMol
        (some ([some 2, none, some 0, some 1, some 3],
          [{ base := 9, ang := 5 }])) true 5 = .ok res
      ∧ res.sd.map Prod.fst
          = [TAGNAME, "TORSION_ATOMS_ParentMol", "TORSION_ATOMPROP"]
      ∧ ∀ k, k ≠ TAGNAME → k ≠ "TORSION_ATOMS_ParentMol" →
          k ≠ "TORSION_ATOMPROP" → getTag res.sd k = none :=
  c10 exMol [some 2, none, some 0, some 1, some 3]
    [{ base := 9, ang := 5 }] true 5 (by omega) (by decide)
    [1, 2, 3, 4] (by decide) (by decide)
/-! ### C9 -/

theorem copySDInto_not_mem (src : List (String × String))
    (dst : List (String × String)) (k : String)
    (h : ∀ p ∈ src, p.1 ≠ k) :
    getTag (copySDInto dst src) k = getTag dst k := by
  induction src generalizing dst with
  | nil => rfl
  | cons p rest ih =>
      have hstep : copySDInto dst (p :: rest)
          = copySDInto (setTag dst p.1 p.2) rest := rfl
      rw [hstep, ih _ (fun q hq => h q (List.mem_cons_of_mem p hq)),
        getTag_setTag_ne _ _ _ _ (h p (List.mem_cons_self p rest))]

theorem getTag_copySDInto (src dst : List (String × String)) (k : String)
    (v : String) (hnd : (src.map Prod.fst).Nodup)
    (h : getTag src k = some v) :
    getTag (copySDInto dst src) k = some v := by
  induction src generalizing dst with
  | nil => simp [getTag] at h
  | cons p rest ih =>
      have hstep : copySDInto dst (p :: rest)
          = copySDInto (setTag dst p.1 p.2) rest := rfl
      rw [hstep]
      rw [List.map_cons, List.nodup_cons] at hnd
      rw [getTag_cons] at h
      by_cases hk : p.1 = k
      · subst hk
        rw [show ((p.1 : String) == p.1) = true from by simp] at h
        have hv : p.2 = v := by simpa using h
        have hnm : ∀ q ∈ rest, q.1 ≠ p.1 := by
          intro q hq he
          exact hnd.1 (he ▸ List.mem_map_of_mem Prod.fst hq)
        rw [copySDInto_not_mem rest _ p.1 hnm, getTag_setTag_self, hv]
      · rw [show ((p.1 : String) == k) = false from by simp [hk]] at h
        have h2 : getTag rest k = some v := by simpa using h
        exact ih _ hnd.2 h2

/-- C9: `split` (`split_confs`) yields exactly one single-conformer molecule
per input conformer, each a copy (same coordinates, titled with the
conformer's title) inheriting the parent molecule's tags (shown for a parent
tag store without duplicate keys, the invariant the overwrite-on-set store
maintains); the embedding of `split_confs` is a pure function of the
unmutated source, so a second invocation on the same source returns the
identical sequence — same count and same labels — which is the restartable
behaviour the claim describes. -/
theorem c9 (mol : Molecule) (hnd : (mol.sd.map Prod.fst).Nodup) :
    (split_confs mol).length = mol.confs.length
    ∧ (∀ m ∈ split_confs mol, m.confs.length = 1)
    ∧ (split_confs mol).map (fun m => m.title)
        = mol.confs.map (fun c => c.title)
    ∧ (split_confs mol).map (fun m => m.confs.map (fun c => c.coords))
        = mol.confs.map (fun c => [c.coords])
    ∧ ∀ k v, getTag mol.sd k = some v →
        ∀ m ∈ split_confs mol, getTag m.sd k = some v := by
  refine ⟨by simp [split_confs], ?_, ?_, ?_, ?_⟩
  · intro m hm
    unfold split_confs at hm
    obtain ⟨c, hc, hrfl⟩ := List.mem_map.mp hm
    rw [← hrfl]
    rfl
  · unfold split_confs
    rw [List.map_map]
    rfl
  · unfold split_confs
    rw [List.map_map]
    rfl
  · intro k v hv m hm
    unfold split_confs at hm
    obtain ⟨c, hc, hrfl⟩ := List.mem_map.mp hm
    rw [← hrfl]
    exact getTag_copySDInto mol.sd c.sdTags k v hnd hv

/-- C9 (witness): evaluated on `exMol`. -/
theorem c9_witness :
    (split_confs exMol).length = exMol.confs.length
    ∧ (∀ m ∈ split_confs exMol, m.confs.length = 1)
    ∧ (split_confs exMol).map (fun m => m.title)
        = exMol.confs.map (fun c => c.title)
    ∧ (split_confs exMol).map (fun m => m.confs.map (fun c => c.coords))
        = exMol.confs.map (fun c => [c.coords])
    ∧ ∀ k v, getTag exMol.sd k = some v →
        ∀ m ∈ split_confs exMol, getTag m.sd k = some v :=
  c9 exMol (by decide)
end Torsion
